import Mathlib

/-!
Verification of the stock-dashboard data pipeline (src/stock.py).

The pipeline ingests an OHLCV series, computes technical indicators
(SMA_50, EMA_20, RSI) on the Close column, caches fetch results keyed by
(ticker, start, end), flattens a possibly two-level column structure and
derives scalar summary statistics.

Cell values of a pandas float column are modelled by `PVal`: either a
rational number or one of the IEEE special values NaN / +inf / -inf,
with the arithmetic of the operations the pipeline actually uses
(addition, subtraction, negation, division, ordering tests).
-/

/-- A pandas float cell: a rational, NaN, or a signed infinity. -/
inductive PVal where
  | nan : PVal
  | num : ℚ → PVal
  | inf : PVal
  | ninf : PVal
deriving DecidableEq

namespace PVal

/-- IEEE addition on the embedded value domain. -/
def add : PVal → PVal → PVal
  | nan, _ => nan
  | _, nan => nan
  | num a, num b => num (a + b)
  | num _, inf => inf
  | num _, ninf => ninf
  | inf, num _ => inf
  | inf, inf => inf
  | inf, ninf => nan
  | ninf, num _ => ninf
  | ninf, inf => nan
  | ninf, ninf => ninf

/-- IEEE negation. -/
def neg : PVal → PVal
  | nan => nan
  | num a => num (-a)
  | inf => ninf
  | ninf => inf

/-- IEEE subtraction, `a - b = a + (-b)`. -/
def sub (a b : PVal) : PVal := add a (neg b)

/-- IEEE division.  A nonzero rational divided by zero yields a signed
infinity (numpy emits a warning but produces `inf`), `0/0` yields NaN, and
a finite value divided by an infinity yields zero. -/
def div : PVal → PVal → PVal
  | nan, _ => nan
  | _, nan => nan
  | num a, num b =>
      if b = 0 then (if 0 < a then inf else if a < 0 then ninf else nan)
      else num (a / b)
  | num _, inf => num 0
  | num _, ninf => num 0
  | inf, num b => if 0 ≤ b then inf else ninf
  | inf, inf => nan
  | inf, ninf => nan
  | ninf, num b => if 0 ≤ b then ninf else inf
  | ninf, inf => nan
  | ninf, ninf => nan

/-- IEEE strict ordering test; every comparison with NaN is false. -/
def lt : PVal → PVal → Bool
  | nan, _ => false
  | _, nan => false
  | num a, num b => decide (a < b)
  | num _, inf => true
  | num _, ninf => false
  | inf, _ => false
  | ninf, ninf => false
  | ninf, _ => true

/-- Whether the cell holds a finite rational. -/
def isNum : PVal → Bool
  | num _ => true
  | _ => false

/-- The rational held by the cell, defaulting to 0. -/
def toQ0 : PVal → ℚ
  | num q => q
  | _ => 0

end PVal

/-! ### Series (column) operations, translated from pandas -/

/-- `Series.diff()`: NaN in the first slot, then consecutive differences. -/
def diffPV (close : List ℚ) : List PVal :=
  match close with
  | [] => []
  | _ :: _ => PVal.nan :: List.zipWith (fun a b => PVal.num (b - a)) close close.tail

/-- `delta.where(delta > 0, 0)`: keep positive deltas, replace everything
else (including the leading NaN) by 0. -/
def gainList (close : List ℚ) : List PVal :=
  (diffPV close).map fun d => if PVal.lt (PVal.num 0) d then d else PVal.num 0

/-- `-(delta.where(delta < 0, 0))`: keep negative deltas negated, replace
everything else (including the leading NaN) by 0. -/
def lossList (close : List ℚ) : List PVal :=
  (diffPV close).map fun d => if PVal.lt d (PVal.num 0) then d.neg else PVal.num 0

/-- `Series.rolling(window=w).mean()` with the default
`min_periods = w`: NaN for the first `w - 1` slots and whenever the
trailing window is not entirely finite, otherwise the arithmetic mean of
the trailing `w` cells. -/
def rollingMeanPV (w : ℕ) (xs : List PVal) : List PVal :=
  (List.range xs.length).map fun i =>
    if i + 1 < w then PVal.nan
    else
      let win := (List.range w).map fun j => xs.getD (i + 1 - w + j) PVal.nan
      if win.all PVal.isNum then PVal.num (((win.map PVal.toQ0).sum) / (w : ℚ))
      else PVal.nan

/-- `data['Close'].rolling(window=w).mean()` (the SMA_50 column for w = 50). -/
def smaCode (w : ℕ) (close : List ℚ) : List PVal :=
  rollingMeanPV w (close.map PVal.num)

/-- Tail of the `ewm(adjust=False)` recurrence: `e` is the previous output,
each new output is `α·x + (1-α)·e`. -/
def ewmRec (α : ℚ) (e : ℚ) : List ℚ → List ℚ
  | [] => []
  | x :: xs => (α * x + (1 - α) * e) :: ewmRec α (α * x + (1 - α) * e) xs

/-- `Series.ewm(adjust=False).mean()` with smoothing factor `α`, seeded
from the first value. -/
def ewmAdjFalse (α : ℚ) : List ℚ → List ℚ
  | [] => []
  | x :: xs => x :: ewmRec α x xs

/-- `data['Close'].ewm(span=s, adjust=False).mean()` (EMA_20 for s = 20),
with `α = 2/(s+1)`. -/
def emaCode (s : ℕ) (close : List ℚ) : List ℚ :=
  ewmAdjFalse (2 / ((s : ℚ) + 1)) close

/-- The RSI column exactly as src/stock.py builds it: 14-period rolling
simple means of gains and losses, `rs = gain/loss` (IEEE division), and
`RSI = 100 - 100/(1 + rs)`. -/
def rsiCode (close : List ℚ) : List PVal :=
  (List.zipWith PVal.div (rollingMeanPV 14 (gainList close))
      (rollingMeanPV 14 (lossList close))).map
    fun r => PVal.sub (PVal.num 100) (PVal.div (PVal.num 100) (PVal.add (PVal.num 1) r))

/-! ### Closed forms used in theorem statements -/

/-- Day-over-day Close delta, with the (undefined) delta of the first row
taken as 0, matching what `where(..., 0)` does to the leading NaN. -/
def deltaQ (close : List ℚ) (i : ℕ) : ℚ :=
  if i = 0 then 0 else close.getD i 0 - close.getD (i - 1) 0

/-- `gain = max(delta, 0)`. -/
def gainQ (close : List ℚ) (i : ℕ) : ℚ := max (deltaQ close i) 0

/-- `loss = max(-delta, 0)`. -/
def lossQ (close : List ℚ) (i : ℕ) : ℚ := max (-(deltaQ close i)) 0

/-! ### Data model: raw fetch result, indicator flags, assembled frame -/

/-- The raw OHLCV columns returned by a successful provider download. -/
structure RawData where
  colOpen : List ℚ
  colHigh : List ℚ
  colLow : List ℚ
  colClose : List ℚ
  colVolume : List ℚ
deriving DecidableEq

/-- The three sidebar indicator checkboxes, read as ambient globals inside
`load_data`. -/
structure Flags where
  showSma : Bool
  showEma : Bool
  showRsi : Bool
deriving DecidableEq

/-- Outcome of `yf.download`: either a data frame (possibly with zero
rows) or a raised exception, which `load_data` catches. -/
inductive FetchResult where
  | success : RawData → FetchResult
  | failure : FetchResult
deriving DecidableEq

/-- The frame handed onward by `load_data`: the base columns plus one
optional column per indicator. -/
structure Frame where
  colOpen : List ℚ
  colHigh : List ℚ
  colLow : List ℚ
  colClose : List ℚ
  colVolume : List ℚ
  sma50 : Option (List PVal)
  ema20 : Option (List PVal)
  rsi : Option (List PVal)
deriving DecidableEq

/-- Number of rows of the frame. -/
def Frame.numRows (f : Frame) : ℕ := f.colClose.length

/-- `pd.DataFrame()`: the empty frame. -/
def Frame.emptyFrame : Frame := ⟨[], [], [], [], [], none, none, none⟩

/-- The indicator block of `load_data`: each enabled flag adds its column,
computed from Close. -/
def computeIndicators (fl : Flags) (raw : RawData) : Frame :=
  { colOpen := raw.colOpen
    colHigh := raw.colHigh
    colLow := raw.colLow
    colClose := raw.colClose
    colVolume := raw.colVolume
    sma50 := if fl.showSma then some (smaCode 50 raw.colClose) else none
    ema20 := if fl.showEma then some ((emaCode 20 raw.colClose).map PVal.num) else none
    rsi := if fl.showRsi then some (rsiCode raw.colClose) else none }

/-- `load_data` (src/stock.py lines 36-56) minus the cache decorator: on a
successful non-empty download it augments the data with the enabled
indicators; an empty download or a caught exception yields the empty
frame. -/
def load_data (fl : Flags) (fr : FetchResult) : Frame :=
  match fr with
  | .success raw => if raw.colClose.length = 0 then Frame.emptyFrame else computeIndicators fl raw
  | .failure => Frame.emptyFrame

/-! ### The `st.cache_data(ttl=3600)` decorator

Streamlit memoizes `load_data` on its arguments `(ticker, start, end)`;
the indicator flags are globals and are not part of the key.  A cached
value is served while its age is below the ttl; otherwise the wrapped
function runs and its return value (whatever it is) is stored. -/

/-- Cache key: the function arguments (ticker, start, end). -/
abbrev CacheKey := String × ℕ × ℕ

/-- Cache store: (key, insertion time, value) entries, newest first. -/
abbrev CacheStore := List (CacheKey × ℕ × Frame)

/-- First entry for the key whose age is still below the ttl. -/
def lookupFresh (ttl now : ℕ) : CacheStore → CacheKey → Option Frame
  | [], _ => none
  | (k2, tIns, v) :: rest, k =>
      if k2 = k ∧ now < tIns + ttl then some v else lookupFresh ttl now rest k

/-- One call to the cached `load_data`: serve a fresh cached value if one
exists, otherwise run the wrapped function and store its result. -/
def getOrFetch (fetch : CacheKey → FetchResult) (fl : Flags) (ttl now : ℕ)
    (c : CacheStore) (k : CacheKey) : Frame × CacheStore :=
  match lookupFresh ttl now c k with
  | some v => (v, c)
  | none =>
      let v := load_data fl (fetch k)
      (v, (k, now, v) :: c)

/-! ### Column flattening (`df.columns = df.columns.get_level_values(0)`) -/

/-- Column labelling of a frame: a flat index of field names, or a
two-level (field, ticker) MultiIndex. -/
inductive Cols where
  | flat : List String → Cols
  | multi : List (String × String) → Cols
deriving DecidableEq

/-- `columns.get_level_values(0)`: on a flat index this returns the index
itself; on a two-level index it keeps the first (field) component. -/
def flattenCols : Cols → Cols
  | .flat ls => .flat ls
  | .multi ps => .flat (ps.map Prod.fst)

/-! ### Ticker extraction (`raw_ticker.strip().split()[0]`) -/

/-- Python `str.isspace` on the whitespace characters `strip`/`split`
recognise. -/
def pyIsSpace (c : Char) : Bool :=
  c == ' ' || c == '\t' || c == '\n' || c == '\r' || c == '\x0b' || c == '\x0c'

/-- Python `str.strip()`: remove leading and trailing whitespace. -/
def pyStrip (s : String) : String :=
  String.mk (((s.toList.dropWhile pyIsSpace).reverse.dropWhile pyIsSpace).reverse)

/-- Python `str.split()` with no argument: split on whitespace runs and
drop empty tokens. -/
def pyTokens (s : String) : List String :=
  ((s.toList.splitOnP pyIsSpace).filter fun w => w ≠ []).map String.mk

/-- `raw_ticker.strip().split()[0]`: `none` models the IndexError raised
when no token exists. -/
def extractTicker (raw : String) : Option String :=
  (pyTokens (pyStrip raw)).head?

/-- The script prologue: extract the ticker, then (and only then) run the
cached fetch-and-augment step.  `none` models the script dying on the
IndexError before any fetch. -/
def pipelineRun (rawTicker : String) (fl : Flags) (fetch : String → FetchResult) :
    Option Frame :=
  match extractTicker rawTicker with
  | none => none
  | some t => some (load_data fl (fetch t))

/-! ### Summary statistics (src/stock.py lines 67-82 and 134-143) -/

/-- `df['Close'].iloc[-1]`. -/
def latestClose (c : List ℚ) : ℚ := c.getLastD 0

/-- `df['Close'].iloc[-2] if len(df) > 1 else latest_close`. -/
def previousClose (c : List ℚ) : ℚ :=
  if 1 < c.length then c.getD (c.length - 2) 0 else latestClose c

/-- The guarded percent change of lines 77-80. -/
def pctChange (c : List ℚ) : ℚ :=
  if previousClose c ≠ 0 then
    (latestClose c - previousClose c) / previousClose c * 100
  else 0

/-- `Series.max()`: fold of `max` over the whole column. -/
def maxQ : List ℚ → Option ℚ
  | [] => none
  | x :: xs => some (xs.foldl max x)

/-- `Series.min()`: fold of `min` over the whole column. -/
def minQ : List ℚ → Option ℚ
  | [] => none
  | x :: xs => some (xs.foldl min x)

/-- `Series.mean()`: sum over count, over the whole column. -/
def meanQ (l : List ℚ) : Option ℚ :=
  if l.length = 0 then none else some (l.sum / (l.length : ℚ))

/-- The "52 Week High" metric: `df['High'].max()` over every fetched row. -/
def week52High (f : Frame) : Option ℚ := maxQ f.colHigh

/-- The "52 Week Low" metric: `df['Low'].min()` over every fetched row. -/
def week52Low (f : Frame) : Option ℚ := minQ f.colLow

/-- The "Average Volume" metric: `df['Volume'].mean()` over every fetched
row. -/
def avgVolume (f : Frame) : Option ℚ := meanQ f.colVolume

/-- A true trailing-window maximum: `max` over only the last `w` rows. -/
def trailingMaxQ (w : ℕ) (l : List ℚ) : Option ℚ := maxQ (l.drop (l.length - w))

/-! ### Spec-side RSI smoothing, for the refinement claim -/

/-- The spec's smoothing for RSI averages: an exponential moving average
with a 14-period Wilder-style decay, center-of-mass = period - 1 (so
`α = 1/period`), minimum periods = period, using the spec's own
`adjust=false` recurrence convention seeded from the first value.  Slots
before `period - 1` are NaN (minimum periods). -/
def wilderAvg (period : ℕ) (xs : List ℚ) : List PVal :=
  (List.range xs.length).map fun i =>
    if i + 1 < period then PVal.nan
    else PVal.num ((ewmAdjFalse (1 / (period : ℚ)) xs).getD i 0)

/-- RSI as the spec describes it: gains and losses as in the code, but
averaged with `wilderAvg` instead of a rolling simple mean; then
`rs = avg_gain/avg_loss` and `RSI = 100 - 100/(1 + rs)`. -/
def rsiSpecEMA (period : ℕ) (close : List ℚ) : List PVal :=
  (List.zipWith PVal.div (wilderAvg period ((gainList close).map PVal.toQ0))
      (wilderAvg period ((lossList close).map PVal.toQ0))).map
    fun r => PVal.sub (PVal.num 100) (PVal.div (PVal.num 100) (PVal.add (PVal.num 1) r))

/-! ### Concrete inputs used by counterexamples and witnesses -/

/-- A 100-row constant raw series. -/
def raw100 : RawData :=
  ⟨List.replicate 100 1, List.replicate 100 1, List.replicate 100 1,
   List.replicate 100 1, List.replicate 100 1⟩

/-- A one-row raw series. -/
def rawOne : RawData := ⟨[1], [1], [1], [1], [1]⟩

/-- A concrete cache key. -/
def keyEx : CacheKey := ("AAPL", 0, 10)

/-- A 14-row Close series with one up day and one down day. -/
def closeC1 : List ℚ := [10, 12, 11, 11, 11, 11, 11, 11, 11, 11, 11, 11, 11, 11]

/-- Gains of `closeC1` as rationals: one up move of 2 at index 1. -/
def gainsC1 : List ℚ := 0 :: 2 :: 0 :: List.replicate 11 0

/-- Losses of `closeC1` as rationals: one down move of 1 at index 2. -/
def lossesC1 : List ℚ := 0 :: 0 :: 1 :: List.replicate 11 0

/-! ### List access helpers -/

theorem getD_map_of_lt {α β : Type} (f : α → β) (l : List α) (i : ℕ)
    (h : i < l.length) (d : β) (d0 : α) :
    (l.map f).getD i d = f (l.getD i d0) := by
  rw [List.getD_eq_getElem (l.map f) d (by simpa using h),
      List.getD_eq_getElem l d0 h, List.getElem_map]

theorem getD_range_map {α : Type} (F : ℕ → α) (n i : ℕ) (h : i < n) (d : α) :
    (((List.range n).map F).getD i d) = F i := by
  rw [getD_map_of_lt F (List.range n) i (by simpa using h) d 0,
      List.getD_eq_getElem _ _ (by simpa using h), List.getElem_range]

theorem getD_zipWith_of_lt {α β γ : Type} (f : α → β → γ) (l1 : List α)
    (l2 : List β) (i : ℕ) (h1 : i < l1.length) (h2 : i < l2.length)
    (d : γ) (d1 : α) (d2 : β) :
    (List.zipWith f l1 l2).getD i d = f (l1.getD i d1) (l2.getD i d2) := by
  have hz : i < (List.zipWith f l1 l2).length := by
    rw [List.length_zipWith]; omega
  rw [List.getD_eq_getElem _ _ hz, List.getD_eq_getElem _ _ h1,
      List.getD_eq_getElem _ _ h2, List.getElem_zipWith]

theorem sum_pos_of_mem_nonneg (l : List ℚ) (h0 : ∀ x ∈ l, 0 ≤ x)
    (y : ℚ) (hy : y ∈ l) (hpos : 0 < y) : 0 < l.sum := by
  induction l with
  | nil => cases hy
  | cons a as ih =>
      rw [List.sum_cons]
      rcases List.mem_cons.mp hy with h | h
      · subst h
        have : 0 ≤ as.sum := List.sum_nonneg fun x hx => h0 x (List.mem_cons_of_mem _ hx)
        linarith
      · have ha : 0 ≤ a := h0 a (List.mem_cons_self a as)
        have : 0 < as.sum := ih (fun x hx => h0 x (List.mem_cons_of_mem _ hx)) h
        linarith

/-! ### Rolling-mean access lemmas -/

theorem length_rollingMeanPV (w : ℕ) (xs : List PVal) :
    (rollingMeanPV w xs).length = xs.length := by
  simp [rollingMeanPV]

theorem rollingMeanPV_getD_warmup (w : ℕ) (xs : List PVal) (t : ℕ)
    (hlt : t + 1 < w) (ht : t < xs.length) :
    (rollingMeanPV w xs).getD t PVal.nan = PVal.nan := by
  rw [rollingMeanPV, getD_range_map _ _ _ ht]
  simp [hlt]

theorem rollingMeanPV_getD_num (w : ℕ) (xs : List PVal) (t : ℕ)
    (hw : w ≤ t + 1) (ht : t < xs.length)
    (hall : ∀ j, j < w → (xs.getD (t + 1 - w + j) PVal.nan).isNum = true) :
    (rollingMeanPV w xs).getD t PVal.nan =
      PVal.num ((((List.range w).map fun j =>
        (xs.getD (t + 1 - w + j) PVal.nan).toQ0).sum) / (w : ℚ)) := by
  rw [rollingMeanPV, getD_range_map _ _ _ ht]
  have hnl : ¬ t + 1 < w := by omega
  simp only [hnl, if_false]
  have hwin : (((List.range w).map fun j => xs.getD (t + 1 - w + j) PVal.nan).all
      PVal.isNum) = true := by
    rw [List.all_eq_true]
    intro x hx
    rcases List.mem_map.mp hx with ⟨j, hj, rfl⟩
    exact hall j (List.mem_range.mp hj)
  simp only [hwin, if_true, List.map_map]
  rfl

/-! ### Gain/loss column lemmas -/

theorem length_diffPV (close : List ℚ) : (diffPV close).length = close.length := by
  cases close with
  | nil => rfl
  | cons x xs => simp [diffPV]

theorem length_gainList (close : List ℚ) : (gainList close).length = close.length := by
  simp [gainList, length_diffPV]

theorem length_lossList (close : List ℚ) : (lossList close).length = close.length := by
  simp [lossList, length_diffPV]

theorem diffPV_getD_zero (close : List ℚ) (h : 0 < close.length) :
    (diffPV close).getD 0 PVal.nan = PVal.nan := by
  cases close with
  | nil => simp at h
  | cons x xs => rfl

theorem diffPV_getD_succ (close : List ℚ) (j : ℕ) (h : j + 1 < close.length) :
    (diffPV close).getD (j + 1) PVal.nan =
      PVal.num (close.getD (j + 1) 0 - close.getD j 0) := by
  cases close with
  | nil => simp at h
  | cons x xs =>
      have hlen : j < xs.length := by simpa using Nat.lt_of_succ_lt_succ h
      show (List.zipWith (fun a b => PVal.num (b - a)) (x :: xs) xs).getD j PVal.nan = _
      rw [getD_zipWith_of_lt _ _ _ j (by simp; omega) hlen PVal.nan 0 0]
      have : (x :: xs).getD (j + 1) 0 = xs.getD j 0 := rfl
      rw [this]

theorem gainList_getD (close : List ℚ) (i : ℕ) (h : i < close.length) :
    (gainList close).getD i PVal.nan = PVal.num (gainQ close i) := by
  cases i with
  | zero =>
      rw [gainList, getD_map_of_lt _ _ 0 (by rw [length_diffPV]; exact h) _ PVal.nan,
          diffPV_getD_zero close h]
      simp [PVal.lt, gainQ, deltaQ]
  | succ j =>
      rw [gainList, getD_map_of_lt _ _ (j + 1) (by rw [length_diffPV]; exact h) _ PVal.nan,
          diffPV_getD_succ close j h]
      have hq : gainQ close (j + 1) = max (close.getD (j + 1) 0 - close.getD j 0) 0 := by
        unfold gainQ deltaQ
        rw [if_neg (by omega : ¬ (j + 1 = 0)), Nat.add_sub_cancel]
      rw [hq]
      show (if PVal.lt (PVal.num 0) (PVal.num (close.getD (j + 1) 0 - close.getD j 0)) then
          PVal.num (close.getD (j + 1) 0 - close.getD j 0) else PVal.num 0) = _
      by_cases hpos : 0 < close.getD (j + 1) 0 - close.getD j 0
      · have hb : PVal.lt (PVal.num 0) (PVal.num (close.getD (j + 1) 0 - close.getD j 0))
            = true := by
          show decide _ = true
          exact decide_eq_true hpos
        rw [if_pos hb, max_eq_left hpos.le]
      · have hb : PVal.lt (PVal.num 0) (PVal.num (close.getD (j + 1) 0 - close.getD j 0))
            = false := by
          show decide _ = false
          exact decide_eq_false hpos
        rw [if_neg (by rw [hb]; exact Bool.false_ne_true),
            max_eq_right (not_lt.mp hpos)]

theorem lossList_getD (close : List ℚ) (i : ℕ) (h : i < close.length) :
    (lossList close).getD i PVal.nan = PVal.num (lossQ close i) := by
  cases i with
  | zero =>
      rw [lossList, getD_map_of_lt _ _ 0 (by rw [length_diffPV]; exact h) _ PVal.nan,
          diffPV_getD_zero close h]
      simp [PVal.lt, lossQ, deltaQ]
  | succ j =>
      rw [lossList, getD_map_of_lt _ _ (j + 1) (by rw [length_diffPV]; exact h) _ PVal.nan,
          diffPV_getD_succ close j h]
      have hq : lossQ close (j + 1) = max (-(close.getD (j + 1) 0 - close.getD j 0)) 0 := by
        unfold lossQ deltaQ
        rw [if_neg (by omega : ¬ (j + 1 = 0)), Nat.add_sub_cancel]
      rw [hq]
      show (if PVal.lt (PVal.num (close.getD (j + 1) 0 - close.getD j 0)) (PVal.num 0) then
          (PVal.num (close.getD (j + 1) 0 - close.getD j 0)).neg else PVal.num 0) = _
      by_cases hneg : close.getD (j + 1) 0 - close.getD j 0 < 0
      · have hb : PVal.lt (PVal.num (close.getD (j + 1) 0 - close.getD j 0)) (PVal.num 0)
            = true := by
          show decide _ = true
          exact decide_eq_true hneg
        have hmax : max (-(close.getD (j + 1) 0 - close.getD j 0)) 0
            = -(close.getD (j + 1) 0 - close.getD j 0) := max_eq_left (by linarith)
        rw [if_pos hb, hmax]
        rfl
      · have hb : PVal.lt (PVal.num (close.getD (j + 1) 0 - close.getD j 0)) (PVal.num 0)
            = false := by
          show decide _ = false
          exact decide_eq_false hneg
        have hmax : max (-(close.getD (j + 1) 0 - close.getD j 0)) 0 = 0 :=
          max_eq_right (by linarith [not_lt.mp hneg])
        rw [if_neg (by rw [hb]; exact Bool.false_ne_true), hmax]

/-! ### EMA recurrence lemmas -/

theorem length_ewmRec (α : ℚ) (e : ℚ) (xs : List ℚ) :
    (ewmRec α e xs).length = xs.length := by
  induction xs generalizing e with
  | nil => rfl
  | cons x xs ih => simp [ewmRec, ih]

theorem length_ewmAdjFalse (α : ℚ) (l : List ℚ) :
    (ewmAdjFalse α l).length = l.length := by
  cases l with
  | nil => rfl
  | cons x xs => simp [ewmAdjFalse, length_ewmRec]

theorem ewmRec_getD (α : ℚ) (xs : List ℚ) (e : ℚ) (t : ℕ) (ht : t < xs.length) :
    (ewmRec α e xs).getD t 0 =
      α * xs.getD t 0 + (1 - α) * ((e :: ewmRec α e xs).getD t 0) := by
  induction xs generalizing e t with
  | nil => simp at ht
  | cons y ys ih =>
      cases t with
      | zero => simp [ewmRec]
      | succ s =>
          have hs : s < ys.length := by simpa using Nat.lt_of_succ_lt_succ ht
          show (ewmRec α (α * y + (1 - α) * e) ys).getD s 0 = _
          rw [ih (α * y + (1 - α) * e) s hs]
          rfl

theorem ewmAdjFalse_getD_succ (α : ℚ) (l : List ℚ) (t : ℕ) (ht : t + 1 < l.length) :
    (ewmAdjFalse α l).getD (t + 1) 0 =
      α * l.getD (t + 1) 0 + (1 - α) * ((ewmAdjFalse α l).getD t 0) := by
  cases l with
  | nil => simp at ht
  | cons x xs =>
      have hs : t < xs.length := by simpa using Nat.lt_of_succ_lt_succ ht
      show (ewmRec α x xs).getD t 0 = _
      rw [ewmRec_getD α xs x t hs]
      rfl

theorem ewmRec_const (α : ℚ) (q : ℚ) (n : ℕ) :
    ewmRec α q (List.replicate n q) = List.replicate n q := by
  induction n with
  | zero => rfl
  | succ m ih =>
      rw [List.replicate_succ, ewmRec]
      have hq : α * q + (1 - α) * q = q := by ring
      rw [hq, ih, ← List.replicate_succ]

theorem ewmAdjFalse_const (α : ℚ) (q : ℚ) (n : ℕ) :
    ewmAdjFalse α (List.replicate n q) = List.replicate n q := by
  cases n with
  | zero => rfl
  | succ m =>
      rw [List.replicate_succ, ewmAdjFalse, ewmRec_const, ← List.replicate_succ]

/-! ### Fold-based max/min/mean lemmas -/

theorem foldl_max_mem (xs : List ℚ) (x : ℚ) : xs.foldl max x ∈ x :: xs := by
  induction xs generalizing x with
  | nil => simp
  | cons y ys ih =>
      show ys.foldl max (max x y) ∈ x :: y :: ys
      rcases List.mem_cons.mp (ih (max x y)) with h | h
      · rw [h]
        rcases max_choice x y with hm | hm <;> rw [hm]
        · exact List.mem_cons_self _ _
        · exact List.mem_cons_of_mem _ (List.mem_cons_self _ _)
      · exact List.mem_cons_of_mem x (List.mem_cons_of_mem y h)

theorem le_foldl_max (xs : List ℚ) (x : ℚ) : ∀ y ∈ x :: xs, y ≤ xs.foldl max x := by
  induction xs generalizing x with
  | nil => intro y hy; simp at hy; simp [hy]
  | cons z zs ih =>
      intro y hy
      show y ≤ zs.foldl max (max x z)
      have bound : max x z ≤ zs.foldl max (max x z) :=
        ih (max x z) (max x z) (List.mem_cons_self _ _)
      rcases List.mem_cons.mp hy with h | h
      · subst h
        exact le_trans (le_max_left y z) bound
      · rcases List.mem_cons.mp h with h2 | h2
        · subst h2
          exact le_trans (le_max_right x y) bound
        · exact ih (max x z) y (List.mem_cons_of_mem _ h2)

theorem foldl_min_mem (xs : List ℚ) (x : ℚ) : xs.foldl min x ∈ x :: xs := by
  induction xs generalizing x with
  | nil => simp
  | cons y ys ih =>
      show ys.foldl min (min x y) ∈ x :: y :: ys
      rcases List.mem_cons.mp (ih (min x y)) with h | h
      · rw [h]
        rcases min_choice x y with hm | hm <;> rw [hm]
        · exact List.mem_cons_self _ _
        · exact List.mem_cons_of_mem _ (List.mem_cons_self _ _)
      · exact List.mem_cons_of_mem x (List.mem_cons_of_mem y h)

theorem foldl_min_le (xs : List ℚ) (x : ℚ) : ∀ y ∈ x :: xs, xs.foldl min x ≤ y := by
  induction xs generalizing x with
  | nil => intro y hy; simp at hy; simp [hy]
  | cons z zs ih =>
      intro y hy
      show zs.foldl min (min x z) ≤ y
      have bound : zs.foldl min (min x z) ≤ min x z :=
        ih (min x z) (min x z) (List.mem_cons_self _ _)
      rcases List.mem_cons.mp hy with h | h
      · subst h
        exact le_trans bound (min_le_left y z)
      · rcases List.mem_cons.mp h with h2 | h2
        · subst h2
          exact le_trans bound (min_le_right x y)
        · exact ih (min x z) y (List.mem_cons_of_mem _ h2)

theorem foldl_max_replicate (n : ℕ) (a b : ℚ) (h : b ≤ a) :
    (List.replicate n b).foldl max a = a := by
  induction n with
  | zero => rfl
  | succ m ih => rw [List.replicate_succ, List.foldl_cons, max_eq_left h, ih]

/-! ### RSI access lemmas -/

theorem length_rsiCode (close : List ℚ) : (rsiCode close).length = close.length := by
  simp [rsiCode, length_rollingMeanPV, length_gainList, length_lossList]

theorem rsiCode_getD (close : List ℚ) (t : ℕ) (ht : t < close.length) :
    (rsiCode close).getD t PVal.nan
      = PVal.sub (PVal.num 100) (PVal.div (PVal.num 100) (PVal.add (PVal.num 1)
          (PVal.div ((rollingMeanPV 14 (gainList close)).getD t PVal.nan)
            ((rollingMeanPV 14 (lossList close)).getD t PVal.nan)))) := by
  unfold rsiCode
  have hg : t < (rollingMeanPV 14 (gainList close)).length := by
    rw [length_rollingMeanPV, length_gainList]; exact ht
  have hl : t < (rollingMeanPV 14 (lossList close)).length := by
    rw [length_rollingMeanPV, length_lossList]; exact ht
  have hzl : t < (List.zipWith PVal.div (rollingMeanPV 14 (gainList close))
      (rollingMeanPV 14 (lossList close))).length := by
    rw [List.length_zipWith]; omega
  rw [getD_map_of_lt _ _ t hzl PVal.nan PVal.nan,
      getD_zipWith_of_lt PVal.div _ _ t hg hl PVal.nan PVal.nan PVal.nan]

theorem rollingGain_getD (close : List ℚ) (t : ℕ) (h14 : 14 ≤ t + 1)
    (ht : t < close.length) :
    (rollingMeanPV 14 (gainList close)).getD t PVal.nan
      = PVal.num ((((List.range 14).map fun j =>
          gainQ close (t + 1 - 14 + j)).sum) / 14) := by
  have hidx : ∀ j, j < 14 → t + 1 - 14 + j < close.length := by intro j hj; omega
  have hall : ∀ j, j < 14 →
      ((gainList close).getD (t + 1 - 14 + j) PVal.nan).isNum = true := by
    intro j hj
    rw [gainList_getD close _ (hidx j hj)]
    rfl
  rw [rollingMeanPV_getD_num 14 _ t h14 (by rw [length_gainList]; exact ht) hall]
  have hmap : ((List.range 14).map fun j =>
      ((gainList close).getD (t + 1 - 14 + j) PVal.nan).toQ0)
      = (List.range 14).map fun j => gainQ close (t + 1 - 14 + j) := by
    apply List.map_congr_left
    intro j hj
    rw [gainList_getD close _ (hidx j (List.mem_range.mp hj))]
    rfl
  rw [hmap]
  norm_num

theorem rollingLoss_getD (close : List ℚ) (t : ℕ) (h14 : 14 ≤ t + 1)
    (ht : t < close.length) :
    (rollingMeanPV 14 (lossList close)).getD t PVal.nan
      = PVal.num ((((List.range 14).map fun j =>
          lossQ close (t + 1 - 14 + j)).sum) / 14) := by
  have hidx : ∀ j, j < 14 → t + 1 - 14 + j < close.length := by intro j hj; omega
  have hall : ∀ j, j < 14 →
      ((lossList close).getD (t + 1 - 14 + j) PVal.nan).isNum = true := by
    intro j hj
    rw [lossList_getD close _ (hidx j hj)]
    rfl
  rw [rollingMeanPV_getD_num 14 _ t h14 (by rw [length_lossList]; exact ht) hall]
  have hmap : ((List.range 14).map fun j =>
      ((lossList close).getD (t + 1 - 14 + j) PVal.nan).toQ0)
      = (List.range 14).map fun j => lossQ close (t + 1 - 14 + j) := by
    apply List.map_congr_left
    intro j hj
    rw [lossList_getD close _ (hidx j (List.mem_range.mp hj))]
    rfl
  rw [hmap]
  norm_num

/-! ### Division evaluation lemmas on PVal -/

theorem PVal.div_num_zero_of_pos (q : ℚ) (hq : 0 < q) :
    PVal.div (PVal.num q) (PVal.num 0) = PVal.inf := by
  show (if (0 : ℚ) = 0 then
      if 0 < q then PVal.inf else if q < 0 then PVal.ninf else PVal.nan
    else PVal.num (q / 0)) = PVal.inf
  rw [if_pos rfl, if_pos hq]

theorem PVal.div_num_num (a b : ℚ) (hb : b ≠ 0) :
    PVal.div (PVal.num a) (PVal.num b) = PVal.num (a / b) := by
  show (if b = 0 then
      if 0 < a then PVal.inf else if a < 0 then PVal.ninf else PVal.nan
    else PVal.num (a / b)) = PVal.num (a / b)
  rw [if_neg hb]

/-! ### Claim theorems -/

/-- C6: the column-flatten step (`df.columns.get_level_values(0)`) is
idempotent, is a no-op on already-flat columns, and collapses a two-level
(field, ticker) structure to the field level. -/
theorem c6_flatten_idempotent :
    (∀ x : Cols, flattenCols (flattenCols x) = flattenCols x) ∧
    (∀ ls : List String, flattenCols (Cols.flat ls) = Cols.flat ls) ∧
    (∀ ps : List (String × String),
      flattenCols (Cols.multi ps) = Cols.flat (ps.map Prod.fst)) := by
  refine ⟨fun x => ?_, fun ls => rfl, fun ps => rfl⟩
  cases x <;> rfl

/-- C8: on an empty or whitespace-only raw ticker, the extraction
`raw.strip().split()[0]` has no token to take (the IndexError), so the
pipeline dies before any fetch happens, whatever the provider would have
answered. -/
theorem c8_whitespace_ticker_crashes (raw : String) (fl : Flags)
    (fetch : String → FetchResult)
    (h : ∀ c ∈ raw.toList, pyIsSpace c = true) :
    pipelineRun raw fl fetch = none := by
  have h1 : raw.toList.dropWhile pyIsSpace = [] := List.dropWhile_eq_nil_iff.mpr h
  have hstrip : (pyStrip raw).toList = [] := by
    unfold pyStrip
    rw [h1]
    rfl
  have he : extractTicker raw = none := by
    unfold extractTicker pyTokens
    rw [hstrip]
    rfl
  unfold pipelineRun
  rw [he]

/-- Witness for C8 at the two-space ticker input. -/
theorem c8_whitespace_ticker_crashes_witness :
    (∀ c ∈ ("  " : String).toList, pyIsSpace c = true) ∧
    pipelineRun "  " ⟨true, true, true⟩ (fun _ => FetchResult.failure) = none :=
  ⟨by decide, c8_whitespace_ticker_crashes "  " ⟨true, true, true⟩
    (fun _ => FetchResult.failure) (by decide)⟩

/-- C5: the summarizer's percent change is the (latest-prior)/prior
formula whenever the prior close is nonzero, and is exactly 0 when the
prior close is zero or the series has a single row; the zero denominator
is guarded, never divided by. -/
theorem c5_pct_change_guard (c : List ℚ) (hne : c ≠ []) :
    (previousClose c ≠ 0 →
      pctChange c = (latestClose c - previousClose c) / previousClose c * 100) ∧
    (previousClose c = 0 → pctChange c = 0) ∧
    (c.length < 2 → pctChange c = 0) := by
  refine ⟨fun h => by rw [pctChange, if_pos h],
          fun h => by rw [pctChange, if_neg (by simp [h])],
          fun hlen => ?_⟩
  have hpos : 0 < c.length := List.length_pos.mpr hne
  have h1 : ¬ 1 < c.length := by omega
  have hprev : previousClose c = latestClose c := by
    unfold previousClose
    rw [if_neg h1]
  by_cases hz : latestClose c = 0
  · rw [pctChange, if_neg (by rw [hprev, hz]; simp)]
  · rw [pctChange, if_pos (by rw [hprev]; exact hz), hprev]
    rw [sub_self, zero_div, zero_mul]

/-- Witness for C5 at the two-row series [5, 10]. -/
theorem c5_pct_change_guard_witness :
    ([(5 : ℚ), 10] ≠ []) ∧
    ((previousClose [(5 : ℚ), 10] ≠ 0 →
      pctChange [(5 : ℚ), 10] =
        (latestClose [(5 : ℚ), 10] - previousClose [(5 : ℚ), 10])
          / previousClose [(5 : ℚ), 10] * 100) ∧
    (previousClose [(5 : ℚ), 10] = 0 → pctChange [(5 : ℚ), 10] = 0) ∧
    ([(5 : ℚ), 10].length < 2 → pctChange [(5 : ℚ), 10] = 0)) :=
  ⟨by decide, c5_pct_change_guard [5, 10] (by decide)⟩

/-- C2 counterexample: with SMA_50 alone enabled, a 100-row fetched
series reaches the presentation layer with all 100 rows, not 51 — no
warm-up trim step exists anywhere after `load_data`. -/
theorem c2_counterexample :
    Frame.numRows (load_data ⟨true, false, false⟩ (FetchResult.success raw100)) = 100 ∧
    Frame.numRows (load_data ⟨true, false, false⟩ (FetchResult.success raw100)) ≠ 51 := by
  have h100 : Frame.numRows (load_data ⟨true, false, false⟩
      (FetchResult.success raw100)) = 100 := rfl
  exact ⟨h100, by rw [h100]; omega⟩

/-- C2 amended: the delivered series keeps every one of its 100 rows; the
SMA_50 column is undefined (NaN) exactly on the first 49 rows and holds a
finite value from row 49 on.  No row is dropped. -/
theorem c2_no_trim_full_length (raw : RawData) (h : raw.colClose.length = 100) :
    Frame.numRows (load_data ⟨true, false, false⟩ (FetchResult.success raw)) = 100 ∧
    ∃ s, (load_data ⟨true, false, false⟩ (FetchResult.success raw)).sma50 = some s ∧
      s.length = 100 ∧
      (∀ t, t < 49 → s.getD t PVal.nan = PVal.nan) ∧
      (∀ t, 49 ≤ t → t < 100 → (s.getD t PVal.nan).isNum = true) := by
  have hne : ¬ (raw.colClose.length = 0) := by omega
  have hstep : load_data ⟨true, false, false⟩ (FetchResult.success raw)
      = if raw.colClose.length = 0 then Frame.emptyFrame
        else computeIndicators ⟨true, false, false⟩ raw := rfl
  have hld : load_data ⟨true, false, false⟩ (FetchResult.success raw)
      = computeIndicators ⟨true, false, false⟩ raw := by
    rw [hstep, if_neg hne]
  rw [hld]
  refine ⟨h, smaCode 50 raw.colClose, rfl, ?_, ?_, ?_⟩
  · rw [smaCode, length_rollingMeanPV, List.length_map, h]
  · intro t ht
    rw [smaCode]
    exact rollingMeanPV_getD_warmup 50 _ t (by omega)
      (by rw [List.length_map, h]; omega)
  · intro t h49 h100c
    have hall : ∀ j, j < 50 →
        (((raw.colClose.map PVal.num).getD (t + 1 - 50 + j) PVal.nan)).isNum = true := by
      intro j hj
      have hidx : t + 1 - 50 + j < raw.colClose.length := by omega
      rw [getD_map_of_lt PVal.num raw.colClose _ hidx PVal.nan 0]
      rfl
    rw [smaCode, rollingMeanPV_getD_num 50 _ t (by omega)
      (by rw [List.length_map, h]; omega) hall]
    rfl

/-- Witness for C2's amended statement at the concrete 100-row series. -/
theorem c2_no_trim_full_length_witness :
    raw100.colClose.length = 100 ∧
    (Frame.numRows (load_data ⟨true, false, false⟩ (FetchResult.success raw100)) = 100 ∧
    ∃ s, (load_data ⟨true, false, false⟩ (FetchResult.success raw100)).sma50 = some s ∧
      s.length = 100 ∧
      (∀ t, t < 49 → s.getD t PVal.nan = PVal.nan) ∧
      (∀ t, 49 ≤ t → t < 100 → (s.getD t PVal.nan).isNum = true)) :=
  ⟨by simp [raw100], c2_no_trim_full_length raw100 (by simp [raw100])⟩

/-- C7 (code behavior at the failing input): a provider failure at key
("AAPL", 0, 10) makes `load_data` return the empty frame, the cache
decorator stores that empty frame under the key, and a retry 100 seconds
later — with the provider now healthy — is served the cached empty frame
instead of the fresh fetch, whose result would have differed. -/
theorem c7_code_caches_failure :
    (getOrFetch (fun _ => FetchResult.failure) ⟨true, true, true⟩ 3600 0 [] keyEx).1
      = Frame.emptyFrame ∧
    (getOrFetch (fun _ => FetchResult.failure) ⟨true, true, true⟩ 3600 0 [] keyEx).2
      = [(keyEx, 0, Frame.emptyFrame)] ∧
    (getOrFetch (fun _ => FetchResult.success rawOne) ⟨true, true, true⟩ 3600 100
        ((getOrFetch (fun _ => FetchResult.failure) ⟨true, true, true⟩ 3600 0 [] keyEx).2)
        keyEx).1 = Frame.emptyFrame ∧
    load_data ⟨true, true, true⟩ (FetchResult.success rawOne) ≠ Frame.emptyFrame := by
  refine ⟨rfl, rfl, ?_, ?_⟩ <;> decide

/-- C10: the indicator flags are not part of the cache key.  A second run
with the same (ticker, start, end) inside the ttl returns the first run's
frame unchanged, whatever the new flag settings are; which indicator
columns exist is decided by the flags of the first run. -/
theorem c10_flags_not_in_cache_key (fetch : CacheKey → FetchResult) (fl1 fl2 : Flags)
    (ttl t0 t1 : ℕ) (k : CacheKey) (hfresh : t1 < t0 + ttl) :
    ((getOrFetch fetch fl2 ttl t1 ((getOrFetch fetch fl1 ttl t0 [] k).2) k).1
        = (getOrFetch fetch fl1 ttl t0 [] k).1) ∧
    (∀ raw, fetch k = FetchResult.success raw → raw.colClose.length ≠ 0 →
      ((getOrFetch fetch fl2 ttl t1 ((getOrFetch fetch fl1 ttl t0 [] k).2) k).1.sma50.isSome
          = fl1.showSma ∧
        (getOrFetch fetch fl2 ttl t1 ((getOrFetch fetch fl1 ttl t0 [] k).2) k).1.ema20.isSome
          = fl1.showEma ∧
        (getOrFetch fetch fl2 ttl t1 ((getOrFetch fetch fl1 ttl t0 [] k).2) k).1.rsi.isSome
          = fl1.showRsi)) := by
  have h1 : getOrFetch fetch fl1 ttl t0 [] k
      = (load_data fl1 (fetch k), [(k, t0, load_data fl1 (fetch k))]) := rfl
  have h2 : lookupFresh ttl t1 [(k, t0, load_data fl1 (fetch k))] k
      = some (load_data fl1 (fetch k)) := by
    unfold lookupFresh
    rw [if_pos ⟨rfl, by omega⟩]
  have h3 : getOrFetch fetch fl2 ttl t1 ((getOrFetch fetch fl1 ttl t0 [] k).2) k
      = (load_data fl1 (fetch k), [(k, t0, load_data fl1 (fetch k))]) := by
    rw [h1]
    unfold getOrFetch
    rw [h2]
  refine ⟨by rw [h3, h1], ?_⟩
  intro raw hraw hlen
  rw [h3]
  show (load_data fl1 (fetch k)).sma50.isSome = fl1.showSma ∧
    (load_data fl1 (fetch k)).ema20.isSome = fl1.showEma ∧
    (load_data fl1 (fetch k)).rsi.isSome = fl1.showRsi
  rw [hraw]
  have hstep : load_data fl1 (FetchResult.success raw)
      = if raw.colClose.length = 0 then Frame.emptyFrame
        else computeIndicators fl1 raw := rfl
  rw [hstep, if_neg hlen]
  unfold computeIndicators
  rcases fl1 with ⟨s, e, r⟩
  cases s <;> cases e <;> cases r <;> exact ⟨rfl, rfl, rfl⟩

/-- Witness for C10: same key fetched at t=0 with only SMA enabled and
re-requested at t=10 with only EMA and RSI enabled. -/
theorem c10_flags_not_in_cache_key_witness :
    ((10 : ℕ) < 0 + 3600) ∧
    (((getOrFetch (fun _ => FetchResult.success rawOne) ⟨false, true, true⟩ 3600 10
        ((getOrFetch (fun _ => FetchResult.success rawOne) ⟨true, false, false⟩ 3600 0 []
          keyEx).2) keyEx).1
        = (getOrFetch (fun _ => FetchResult.success rawOne) ⟨true, false, false⟩ 3600 0 []
          keyEx).1) ∧
    (∀ raw, (fun _ => FetchResult.success rawOne : CacheKey → FetchResult) keyEx
        = FetchResult.success raw → raw.colClose.length ≠ 0 →
      ((getOrFetch (fun _ => FetchResult.success rawOne) ⟨false, true, true⟩ 3600 10
          ((getOrFetch (fun _ => FetchResult.success rawOne) ⟨true, false, false⟩ 3600 0 []
            keyEx).2) keyEx).1.sma50.isSome = (Flags.mk true false false).showSma ∧
        (getOrFetch (fun _ => FetchResult.success rawOne) ⟨false, true, true⟩ 3600 10
          ((getOrFetch (fun _ => FetchResult.success rawOne) ⟨true, false, false⟩ 3600 0 []
            keyEx).2) keyEx).1.ema20.isSome = (Flags.mk true false false).showEma ∧
        (getOrFetch (fun _ => FetchResult.success rawOne) ⟨false, true, true⟩ 3600 10
          ((getOrFetch (fun _ => FetchResult.success rawOne) ⟨true, false, false⟩ 3600 0 []
            keyEx).2) keyEx).1.rsi.isSome = (Flags.mk true false false).showRsi))) :=
  ⟨by omega, c10_flags_not_in_cache_key (fun _ => FetchResult.success rawOne)
    ⟨true, false, false⟩ ⟨false, true, true⟩ 3600 0 10 keyEx (by omega)⟩

/-- C4: the EMA_20 column is the adjust=false recurrence with
α = 2/(20+1), seeded at the first Close, defined for every row (the whole
column maps through `PVal.num`, so there is no warm-up NaN), and constant
on a constant Close series from the very first row. -/
theorem c4_ema_adjust_false (fl : Flags) (raw : RawData) (hema : fl.showEma = true)
    (hne : raw.colClose.length ≠ 0) :
    ∃ e : List ℚ,
      (load_data fl (FetchResult.success raw)).ema20 = some (e.map PVal.num) ∧
      e.length = raw.colClose.length ∧
      e.getD 0 0 = raw.colClose.getD 0 0 ∧
      (∀ t, t + 1 < e.length →
        e.getD (t + 1) 0 = 2 / 21 * raw.colClose.getD (t + 1) 0
          + (1 - 2 / 21) * e.getD t 0) ∧
      (∀ q : ℚ, raw.colClose = List.replicate raw.colClose.length q →
        e = List.replicate raw.colClose.length q) := by
  have hstep : load_data fl (FetchResult.success raw)
      = if raw.colClose.length = 0 then Frame.emptyFrame
        else computeIndicators fl raw := rfl
  refine ⟨emaCode 20 raw.colClose, ?_, ?_, ?_, ?_, ?_⟩
  · rw [hstep, if_neg hne]
    unfold computeIndicators
    simp [hema]
  · rw [emaCode, length_ewmAdjFalse]
  · rcases hc : raw.colClose with _ | ⟨x, xs⟩ <;> rfl
  · intro t ht
    rw [emaCode, length_ewmAdjFalse] at ht
    rw [emaCode, ewmAdjFalse_getD_succ _ _ _ ht]
    norm_num
  · intro q hrep
    rw [emaCode]
    conv_lhs => rw [hrep]
    rw [ewmAdjFalse_const]

/-- Witness for C4 at a constant 3-row series with EMA enabled. -/
theorem c4_ema_adjust_false_witness :
    ((Flags.mk false true false).showEma = true) ∧
    ((⟨[], [], [], [(7 : ℚ), 7, 7], []⟩ : RawData).colClose.length ≠ 0) ∧
    (∃ e : List ℚ,
      (load_data ⟨false, true, false⟩
          (FetchResult.success ⟨[], [], [], [(7 : ℚ), 7, 7], []⟩)).ema20
        = some (e.map PVal.num) ∧
      e.length = (⟨[], [], [], [(7 : ℚ), 7, 7], []⟩ : RawData).colClose.length ∧
      e.getD 0 0 = (⟨[], [], [], [(7 : ℚ), 7, 7], []⟩ : RawData).colClose.getD 0 0 ∧
      (∀ t, t + 1 < e.length →
        e.getD (t + 1) 0 = 2 / 21
            * (⟨[], [], [], [(7 : ℚ), 7, 7], []⟩ : RawData).colClose.getD (t + 1) 0
          + (1 - 2 / 21) * e.getD t 0) ∧
      (∀ q : ℚ,
        (⟨[], [], [], [(7 : ℚ), 7, 7], []⟩ : RawData).colClose
          = List.replicate
              (⟨[], [], [], [(7 : ℚ), 7, 7], []⟩ : RawData).colClose.length q →
        e = List.replicate
              (⟨[], [], [], [(7 : ℚ), 7, 7], []⟩ : RawData).colClose.length q)) :=
  ⟨rfl, by decide,
    c4_ema_adjust_false ⟨false, true, false⟩ ⟨[], [], [], [7, 7, 7], []⟩ rfl (by decide)⟩

/-- C9: the "52 Week High" / "52 Week Low" / "Average Volume" metrics are
the max, min and mean over every fetched row — witnessed by a member of
the whole column that bounds the whole column, and a mean whose product
with the full row count gives the full column sum — and for any
trailing-window length there is a series on which the full-range maximum
differs from the true trailing-window maximum. -/
theorem c9_stats_full_range :
    (∀ fr : Frame, fr.colHigh ≠ [] →
      ∃ m, week52High fr = some m ∧ m ∈ fr.colHigh ∧ ∀ x ∈ fr.colHigh, x ≤ m) ∧
    (∀ fr : Frame, fr.colLow ≠ [] →
      ∃ m, week52Low fr = some m ∧ m ∈ fr.colLow ∧ ∀ x ∈ fr.colLow, m ≤ x) ∧
    (∀ fr : Frame, fr.colVolume ≠ [] →
      ∃ m, avgVolume fr = some m ∧ m * (fr.colVolume.length : ℚ) = fr.colVolume.sum) ∧
    (∀ w : ℕ, 0 < w → ∃ fr : Frame,
      w < fr.colHigh.length ∧ week52High fr ≠ trailingMaxQ w fr.colHigh) := by
  refine ⟨?_, ?_, ?_, ?_⟩
  · intro fr hne
    rcases hl : fr.colHigh with _ | ⟨x, xs⟩
    · exact absurd hl hne
    · refine ⟨xs.foldl max x, ?_, ?_, ?_⟩
      · rw [week52High, hl]
        rfl
      · exact foldl_max_mem xs x
      · exact le_foldl_max xs x
  · intro fr hne
    rcases hl : fr.colLow with _ | ⟨x, xs⟩
    · exact absurd hl hne
    · refine ⟨xs.foldl min x, ?_, ?_, ?_⟩
      · rw [week52Low, hl]
        rfl
      · exact foldl_min_mem xs x
      · exact foldl_min_le xs x
  · intro fr hne
    have hlen : fr.colVolume.length ≠ 0 := by
      intro h0
      exact hne (List.length_eq_zero.mp h0)
    refine ⟨fr.colVolume.sum / (fr.colVolume.length : ℚ), ?_, ?_⟩
    · rw [avgVolume, meanQ, if_neg hlen]
    · exact div_mul_cancel₀ _ (Nat.cast_ne_zero.mpr hlen)
  · intro w hw
    refine ⟨⟨[], (2 : ℚ) :: List.replicate w 1, [], [], [], none, none, none⟩, ?_, ?_⟩
    · simp
    · show maxQ ((2 : ℚ) :: List.replicate w 1)
        ≠ trailingMaxQ w ((2 : ℚ) :: List.replicate w 1)
      have hfull : maxQ ((2 : ℚ) :: List.replicate w 1) = some 2 := by
        rw [maxQ]
        rw [foldl_max_replicate w 2 1 (by norm_num)]
      have hlen : ((2 : ℚ) :: List.replicate w 1).length - w = 1 := by
        simp
      have hdrop : ((2 : ℚ) :: List.replicate w 1).drop 1 = List.replicate w 1 := rfl
      have htail : trailingMaxQ w ((2 : ℚ) :: List.replicate w 1) = some 1 := by
        rw [trailingMaxQ, hlen, hdrop]
        rcases hw2 : w with _ | v
        · omega
        · rw [List.replicate_succ, maxQ, foldl_max_replicate v 1 1 le_rfl]
      rw [hfull, htail]
      intro hcontr
      have : (2 : ℚ) = 1 := Option.some.inj hcontr
      norm_num at this

/-- Witness for C9 at a 3-row frame and window length 2. -/
theorem c9_stats_full_range_witness :
    ((⟨[], [(3 : ℚ), 9, 4], [], [], [], none, none, none⟩ : Frame).colHigh ≠ [] ∧
      ∃ m, week52High ⟨[], [(3 : ℚ), 9, 4], [], [], [], none, none, none⟩ = some m ∧
        m ∈ (⟨[], [(3 : ℚ), 9, 4], [], [], [], none, none, none⟩ : Frame).colHigh ∧
        ∀ x ∈ (⟨[], [(3 : ℚ), 9, 4], [], [], [], none, none, none⟩ : Frame).colHigh,
          x ≤ m) ∧
    (0 < 2 ∧ ∃ fr : Frame, 2 < fr.colHigh.length ∧
      week52High fr ≠ trailingMaxQ 2 fr.colHigh) :=
  ⟨⟨by decide,
    c9_stats_full_range.1 ⟨[], [(3 : ℚ), 9, 4], [], [], [], none, none, none⟩
      (by decide)⟩,
   ⟨by decide, c9_stats_full_range.2.2.2 2 (by decide)⟩⟩

/-- C3: on a strictly increasing Close series every loss is zero, so
`rs = avg_gain / 0` is IEEE `+inf`, and `100 - 100/(1 + inf)` collapses to
exactly 100: the RSI cell holds the finite rational 100, not NaN and not
an infinity, at every index where it is defined. -/
theorem c3_rsi_strictly_increasing (close : List ℚ)
    (hinc : List.Pairwise (· < ·) close)
    (t : ℕ) (h13 : 13 ≤ t) (ht : t < close.length) :
    (rsiCode close).getD t PVal.nan = PVal.num 100 := by
  have hadj : ∀ j, j + 1 < close.length → close.getD j 0 < close.getD (j + 1) 0 := by
    intro j hj
    rw [List.getD_eq_getElem close 0 (by omega), List.getD_eq_getElem close 0 hj]
    exact List.pairwise_iff_getElem.mp hinc j (j + 1) (by omega) hj (by omega)
  have hdpos : ∀ j, j + 1 < close.length → 0 < deltaQ close (j + 1) := by
    intro j hj
    unfold deltaQ
    rw [if_neg (by omega : ¬ (j + 1 = 0)), Nat.add_sub_cancel]
    have := hadj j hj
    linarith
  have hloss0 : ∀ i, i < close.length → lossQ close i = 0 := by
    intro i hi
    rcases i with _ | j
    · unfold lossQ deltaQ
      simp
    · unfold lossQ
      have := hdpos j hi
      rw [max_eq_right (by linarith)]
  have hL : (rollingMeanPV 14 (lossList close)).getD t PVal.nan = PVal.num 0 := by
    rw [rollingLoss_getD close t (by omega) ht]
    have hz : ((List.range 14).map fun j => lossQ close (t + 1 - 14 + j)).sum = 0 := by
      apply List.sum_eq_zero
      intro x hx
      rcases List.mem_map.mp hx with ⟨j, hj, rfl⟩
      exact hloss0 _ (by have := List.mem_range.mp hj; omega)
    rw [hz]
    norm_num
  have hGsum : 0 < ((List.range 14).map fun j => gainQ close (t + 1 - 14 + j)).sum := by
    apply sum_pos_of_mem_nonneg _ ?nonneg (gainQ close (t + 1 - 14 + 13))
      (List.mem_map.mpr ⟨13, List.mem_range.mpr (by omega), rfl⟩) ?pos
    case nonneg =>
      intro x hx
      rcases List.mem_map.mp hx with ⟨j, hj, rfl⟩
      exact le_max_right _ _
    case pos =>
      have hidx : t + 1 - 14 + 13 = t := by omega
      rw [hidx]
      obtain ⟨s, rfl⟩ : ∃ s, t = s + 1 := ⟨t - 1, by omega⟩
      have hd := hdpos s ht
      unfold gainQ
      rw [max_eq_left (by linarith)]
      exact hd
  have hG := rollingGain_getD close t (by omega) ht
  have hGpos : 0 < ((List.range 14).map fun j => gainQ close (t + 1 - 14 + j)).sum / 14 :=
    div_pos hGsum (by norm_num)
  rw [rsiCode_getD close t ht, hG, hL]
  rw [PVal.div_num_zero_of_pos _ hGpos]
  show PVal.num (100 + -(0 : ℚ)) = PVal.num 100
  norm_num

/-- Witness for C3: the increasing series 1..15 has RSI exactly 100 at
index 13. -/
theorem c3_rsi_strictly_increasing_witness :
    List.Pairwise (· < ·)
      [(1 : ℚ), 2, 3, 4, 5, 6, 7, 8, 9, 10, 11, 12, 13, 14, 15] ∧
    (13 : ℕ) ≤ 13 ∧
    13 < ([(1 : ℚ), 2, 3, 4, 5, 6, 7, 8, 9, 10, 11, 12, 13, 14, 15] : List ℚ).length ∧
    (rsiCode [(1 : ℚ), 2, 3, 4, 5, 6, 7, 8, 9, 10, 11, 12, 13, 14, 15]).getD 13 PVal.nan
      = PVal.num 100 :=
  ⟨by decide, by decide, by decide,
    c3_rsi_strictly_increasing [1, 2, 3, 4, 5, 6, 7, 8, 9, 10, 11, 12, 13, 14, 15]
      (by decide) 13 (by decide) (by decide)⟩

/-! ### Helper lemmas for the RSI smoothing comparison -/

theorem ewmRec_zero_tail (α e : ℚ) (n : ℕ) : ∀ k, k < n →
    (ewmRec α e (List.replicate n 0)).getD k 0 = (1 - α) ^ (k + 1) * e := by
  induction n generalizing e with
  | zero => intro k hk; omega
  | succ m ih =>
      intro k hk
      rw [List.replicate_succ, ewmRec]
      cases k with
      | zero =>
          show α * 0 + (1 - α) * e = (1 - α) ^ (0 + 1) * e
          ring
      | succ j =>
          show (ewmRec α (α * 0 + (1 - α) * e) (List.replicate m 0)).getD j 0 = _
          rw [ih (α * 0 + (1 - α) * e) j (by omega)]
          ring

theorem ewmAdjFalse_impulse3 (α a b c : ℚ) (n k : ℕ) (hk : k < n) :
    (ewmAdjFalse α (a :: b :: c :: List.replicate n 0)).getD (k + 3) 0
      = (1 - α) ^ (k + 1) * (α * c + (1 - α) * (α * b + (1 - α) * a)) := by
  show (ewmRec α (α * c + (1 - α) * (α * b + (1 - α) * a))
      (List.replicate n 0)).getD k 0 = _
  exact ewmRec_zero_tail α _ n k hk

theorem rangeFourteen : List.range 14 = [0, 1, 2, 3, 4, 5, 6, 7, 8, 9, 10, 11, 12, 13] := by
  decide

theorem gainsC1_eval : (gainList closeC1).map PVal.toQ0 = gainsC1 := by
  show (gainList closeC1).map PVal.toQ0 = [0, 2, 0, 0, 0, 0, 0, 0, 0, 0, 0, 0, 0, 0]
  norm_num [gainList, diffPV, closeC1, PVal.lt, PVal.toQ0]

theorem lossesC1_eval : (lossList closeC1).map PVal.toQ0 = lossesC1 := by
  show (lossList closeC1).map PVal.toQ0 = [0, 0, 1, 0, 0, 0, 0, 0, 0, 0, 0, 0, 0, 0]
  norm_num [lossList, diffPV, closeC1, PVal.lt, PVal.toQ0, PVal.neg]

theorem gainsC1_window_sum :
    ((List.range 14).map fun j => gainQ closeC1 (13 + 1 - 14 + j)).sum = 2 := by
  rw [rangeFourteen]
  simp only [List.map_cons, List.map_nil, List.sum_cons, List.sum_nil]
  norm_num [gainQ, deltaQ, closeC1]

theorem lossesC1_window_sum :
    ((List.range 14).map fun j => lossQ closeC1 (13 + 1 - 14 + j)).sum = 1 := by
  rw [rangeFourteen]
  simp only [List.map_cons, List.map_nil, List.sum_cons, List.sum_nil]
  norm_num [lossQ, deltaQ, closeC1]

/-- C1 counterexample: on the 14-row Close series `closeC1` (one gain of
2, one loss of 1), the code's rolling-simple-mean RSI at index 13 is
200/3 ≈ 66.67, while the spec's Wilder-decay EMA smoothing (center of
mass 13, minimum periods 14, adjust=false recurrence) yields exactly 65:
the RSI column is not computed by the spec's algorithm. -/
theorem c1_rsi_not_wilder_counterexample :
    (rsiCode closeC1).getD 13 PVal.nan = PVal.num (200 / 3) ∧
    (rsiSpecEMA 14 closeC1).getD 13 PVal.nan = PVal.num 65 ∧
    PVal.num (200 / 3) ≠ PVal.num 65 := by
  refine ⟨?_, ?_, ?_⟩
  · rw [rsiCode_getD closeC1 13 (by decide),
        rollingGain_getD closeC1 13 (by omega) (by decide),
        rollingLoss_getD closeC1 13 (by omega) (by decide),
        gainsC1_window_sum, lossesC1_window_sum,
        PVal.div_num_num (2 / 14) (1 / 14) (by norm_num)]
    have h1 : ((2 : ℚ) / 14) / ((1 : ℚ) / 14) = 2 := by norm_num
    rw [h1, show PVal.add (PVal.num 1) (PVal.num 2) = PVal.num (1 + 2) from rfl,
        PVal.div_num_num 100 (1 + 2) (by norm_num)]
    show PVal.num (100 + -(100 / (1 + 2))) = PVal.num (200 / 3)
    norm_num
  · have h1 : (wilderAvg 14 ((gainList closeC1).map PVal.toQ0)).length = 14 := by
      simp [wilderAvg, length_gainList, closeC1]
    have h2 : (wilderAvg 14 ((lossList closeC1).map PVal.toQ0)).length = 14 := by
      simp [wilderAvg, length_lossList, closeC1]
    unfold rsiSpecEMA
    rw [getD_map_of_lt _ _ 13 (by rw [List.length_zipWith, h1, h2]; omega) PVal.nan
          PVal.nan,
        getD_zipWith_of_lt PVal.div _ _ 13 (by omega) (by omega) PVal.nan PVal.nan
          PVal.nan,
        gainsC1_eval, lossesC1_eval]
    have hAG : (wilderAvg 14 gainsC1).getD 13 PVal.nan
        = PVal.num ((ewmAdjFalse (1 / ((14 : ℕ) : ℚ)) gainsC1).getD 13 0) := by
      unfold wilderAvg
      rw [getD_range_map _ gainsC1.length 13 (by decide) PVal.nan]
      rw [if_neg (by omega)]
    have hAL : (wilderAvg 14 lossesC1).getD 13 PVal.nan
        = PVal.num ((ewmAdjFalse (1 / ((14 : ℕ) : ℚ)) lossesC1).getD 13 0) := by
      unfold wilderAvg
      rw [getD_range_map _ lossesC1.length 13 (by decide) PVal.nan]
      rw [if_neg (by omega)]
    have hg13 : (ewmAdjFalse (1 / ((14 : ℕ) : ℚ)) gainsC1).getD 13 0
        = (1 - 1 / ((14 : ℕ) : ℚ)) ^ 11 * ((1 / ((14 : ℕ) : ℚ)) * 0
            + (1 - 1 / ((14 : ℕ) : ℚ)) * ((1 / ((14 : ℕ) : ℚ)) * 2
              + (1 - 1 / ((14 : ℕ) : ℚ)) * 0)) := by
      have h := ewmAdjFalse_impulse3 (1 / ((14 : ℕ) : ℚ)) 0 2 0 11 10 (by omega)
      simp only [show (10 : ℕ) + 3 = 13 from rfl, show (10 : ℕ) + 1 = 11 from rfl] at h
      exact h
    have hl13 : (ewmAdjFalse (1 / ((14 : ℕ) : ℚ)) lossesC1).getD 13 0
        = (1 - 1 / ((14 : ℕ) : ℚ)) ^ 11 * ((1 / ((14 : ℕ) : ℚ)) * 1
            + (1 - 1 / ((14 : ℕ) : ℚ)) * ((1 / ((14 : ℕ) : ℚ)) * 0
              + (1 - 1 / ((14 : ℕ) : ℚ)) * 0)) := by
      have h := ewmAdjFalse_impulse3 (1 / ((14 : ℕ) : ℚ)) 0 0 1 11 10 (by omega)
      simp only [show (10 : ℕ) + 3 = 13 from rfl, show (10 : ℕ) + 1 = 11 from rfl] at h
      exact h
    rw [hAG, hAL, hg13, hl13]
    have hLne : (1 - 1 / ((14 : ℕ) : ℚ)) ^ 11 * ((1 / ((14 : ℕ) : ℚ)) * 1
        + (1 - 1 / ((14 : ℕ) : ℚ)) * ((1 / ((14 : ℕ) : ℚ)) * 0
          + (1 - 1 / ((14 : ℕ) : ℚ)) * 0)) ≠ 0 := by
      norm_num
    rw [PVal.div_num_num _ _ hLne]
    have hGL : ((1 - 1 / ((14 : ℕ) : ℚ)) ^ 11 * ((1 / ((14 : ℕ) : ℚ)) * 0
            + (1 - 1 / ((14 : ℕ) : ℚ)) * ((1 / ((14 : ℕ) : ℚ)) * 2
              + (1 - 1 / ((14 : ℕ) : ℚ)) * 0)))
        / ((1 - 1 / ((14 : ℕ) : ℚ)) ^ 11 * ((1 / ((14 : ℕ) : ℚ)) * 1
            + (1 - 1 / ((14 : ℕ) : ℚ)) * ((1 / ((14 : ℕ) : ℚ)) * 0
              + (1 - 1 / ((14 : ℕ) : ℚ)) * 0))) = 13 / 7 := by
      norm_num
    rw [hGL, show PVal.add (PVal.num 1) (PVal.num (13 / 7)) = PVal.num (1 + 13 / 7)
          from rfl,
        PVal.div_num_num 100 (1 + 13 / 7) (by norm_num)]
    show PVal.num (100 + -(100 / (1 + 13 / 7))) = PVal.num 65
    norm_num
  · intro h
    rw [PVal.num.injEq] at h
    norm_num at h

theorem PVal.add_num_num (a b : ℚ) :
    PVal.add (PVal.num a) (PVal.num b) = PVal.num (a + b) := rfl

theorem PVal.sub_num_num (a b : ℚ) :
    PVal.sub (PVal.num a) (PVal.num b) = PVal.num (a - b) := by
  show PVal.num (a + -b) = PVal.num (a - b)
  rw [sub_eq_add_neg]

/-- C1 amended: the RSI column is built from day-over-day deltas with
gain = max(delta, 0) and loss = max(-delta, 0) (the undefined first delta
contributing zero to both), but the averages are 14-period SIMPLE rolling
means, not a Wilder-style exponential moving average; the column is NaN
for the first 13 rows and, wherever the average loss is positive, equals
100 - 100/(1 + avg_gain/avg_loss). -/
theorem c1_rsi_rolling_mean (fl : Flags) (raw : RawData) (hrsi : fl.showRsi = true)
    (hne : raw.colClose.length ≠ 0) :
    ∃ r, (load_data fl (FetchResult.success raw)).rsi = some r ∧
      r.length = raw.colClose.length ∧
      (∀ t, t < 13 → t < raw.colClose.length → r.getD t PVal.nan = PVal.nan) ∧
      (∀ t, 13 ≤ t → t < raw.colClose.length →
        0 < ((List.range 14).map fun j =>
            lossQ raw.colClose (t + 1 - 14 + j)).sum / 14 →
        r.getD t PVal.nan = PVal.num (100 - 100 /
          (1 + (((List.range 14).map fun j =>
              gainQ raw.colClose (t + 1 - 14 + j)).sum / 14)
            / (((List.range 14).map fun j =>
              lossQ raw.colClose (t + 1 - 14 + j)).sum / 14)))) := by
  have hstep : load_data fl (FetchResult.success raw)
      = if raw.colClose.length = 0 then Frame.emptyFrame
        else computeIndicators fl raw := rfl
  refine ⟨rsiCode raw.colClose, ?_, length_rsiCode _, ?_, ?_⟩
  · rw [hstep, if_neg hne]
    unfold computeIndicators
    simp [hrsi]
  · intro t h13 ht
    rw [rsiCode_getD _ t ht,
        rollingMeanPV_getD_warmup 14 _ t (by omega) (by rw [length_gainList]; exact ht),
        rollingMeanPV_getD_warmup 14 _ t (by omega) (by rw [length_lossList]; exact ht)]
    rfl
  · intro t h13 ht hLpos
    rw [rsiCode_getD _ t ht, rollingGain_getD _ t (by omega) ht,
        rollingLoss_getD _ t (by omega) ht,
        PVal.div_num_num _ _ (ne_of_gt hLpos)]
    have hGnn : 0 ≤ ((List.range 14).map fun j =>
        gainQ raw.colClose (t + 1 - 14 + j)).sum / 14 := by
      apply div_nonneg _ (by norm_num)
      apply List.sum_nonneg
      intro x hx
      rcases List.mem_map.mp hx with ⟨j, hj, rfl⟩
      exact le_max_right _ _
    have h1pos : 0 < 1 + (((List.range 14).map fun j =>
          gainQ raw.colClose (t + 1 - 14 + j)).sum / 14)
        / (((List.range 14).map fun j =>
          lossQ raw.colClose (t + 1 - 14 + j)).sum / 14) := by
      have := div_nonneg hGnn hLpos.le
      linarith
    rw [PVal.add_num_num, PVal.div_num_num 100 _ (ne_of_gt h1pos), PVal.sub_num_num]

/-- Witness for C1's amended statement on the 14-row series `closeC1`
with RSI enabled. -/
theorem c1_rsi_rolling_mean_witness :
    ((Flags.mk false false true).showRsi = true) ∧
    ((⟨[], [], [], closeC1, []⟩ : RawData).colClose.length ≠ 0) ∧
    (∃ r, (load_data ⟨false, false, true⟩
        (FetchResult.success ⟨[], [], [], closeC1, []⟩)).rsi = some r ∧
      r.length = (⟨[], [], [], closeC1, []⟩ : RawData).colClose.length ∧
      (∀ t, t < 13 → t < (⟨[], [], [], closeC1, []⟩ : RawData).colClose.length →
        r.getD t PVal.nan = PVal.nan) ∧
      (∀ t, 13 ≤ t → t < (⟨[], [], [], closeC1, []⟩ : RawData).colClose.length →
        0 < ((List.range 14).map fun j =>
            lossQ (⟨[], [], [], closeC1, []⟩ : RawData).colClose (t + 1 - 14 + j)).sum
              / 14 →
        r.getD t PVal.nan = PVal.num (100 - 100 /
          (1 + (((List.range 14).map fun j =>
              gainQ (⟨[], [], [], closeC1, []⟩ : RawData).colClose (t + 1 - 14 + j)).sum
                / 14)
            / (((List.range 14).map fun j =>
              lossQ (⟨[], [], [], closeC1, []⟩ : RawData).colClose (t + 1 - 14 + j)).sum
                / 14))))) :=
  ⟨rfl, by decide,
    c1_rsi_rolling_mean ⟨false, false, true⟩ ⟨[], [], [], closeC1, []⟩ rfl (by decide)⟩
